import Mathlib

/-!
Shallow embedding of the record-to-metric pipeline of `make_arrow`
(`src/main.rs`): the record filter, the gap-compressed identity
calculator (fast path from the `de` tag, fallback from CIGAR and the
`NM` tag) and the column accumulator.

Machine integers are modelled as `Nat` with explicit reduction modulo
`2 ^ 32` (the Rust code accumulates `matches`, `gap_size`, `gap_count`
and the numerator in `u32`, with release-mode wrapping) and modulo
`2 ^ 64` for the `as u64` cast of the reference span.  Finite
floating-point values are modelled as exact rationals; the one place
where IEEE non-finite values can arise (division by a zero denominator)
is modelled explicitly by the `FVal` sum type, so that NaN/infinity
propagation is visible.  Panics (`panic!`, `.expect`) are modelled as
`Except` errors, named after the spec's error taxonomy.
-/

namespace MakeArrow

/-- The `u32` modulus. -/
def M32 : Nat := 2 ^ 32

/-- Wrapping `u32` addition (Rust release-mode `+` on `u32`). -/
def add32 (a b : Nat) : Nat := (a + b) % M32

/-- Wrapping `u32` subtraction (Rust release-mode `-` on `u32`),
for operands already reduced below `M32`. -/
def sub32 (a b : Nat) : Nat := (a + M32 - b) % M32

/-- CIGAR alignment operations, as in `rust_htslib::bam::record::Cigar`. -/
inductive Cigar where
  | Match (len : Nat)
  | Ins (len : Nat)
  | Del (len : Nat)
  | RefSkip (len : Nat)
  | SoftClip (len : Nat)
  | HardClip (len : Nat)
  | Pad (len : Nat)
  | Equal (len : Nat)
  | Diff (len : Nat)
deriving DecidableEq

/-- Optional-tag values, the tagged union of `rust_htslib`'s `Aux`
restricted to the variants the program distinguishes
(`U8`, `U16`, `U32`, `Float`) plus a catch-all `Other`. -/
inductive Aux where
  | U8 (v : Nat)
  | U16 (v : Nat)
  | U32 (v : Nat)
  | Float (v : ℚ)
  | Other
deriving DecidableEq

/-- Range well-formedness of a tag value: each unsigned variant holds a
value below its width's bound (guaranteed by the Rust types). -/
def Aux.wf : Aux → Prop
  | .U8 v => v < 2 ^ 8
  | .U16 v => v < 2 ^ 16
  | .U32 v => v < 2 ^ 32
  | .Float _ => True
  | .Other => True

instance : DecidablePred Aux.wf := fun a => by
  cases a <;> (unfold Aux.wf) <;> infer_instance

/-- One alignment record, with the fields the pipeline reads.
The `de` and `nm` fields model the result of the `aux(b"de")` /
`aux(b"NM")` lookups (`none` = tag absent). -/
structure BamRecord where
  flags : Nat
  seq_len : Nat
  reference_start : Int
  reference_end : Int
  mapq : Nat
  cigar : List Cigar
  de : Option Aux
  nm : Option Aux
deriving DecidableEq

/-- The spec's fatal error taxonomy for tag access
(the Rust code panics in both situations). -/
inductive TagError where
  | TagMissing
  | TagTypeMismatch
deriving DecidableEq

/-- A 64-bit floating-point value: a finite value modelled as an exact
rational, or one of the IEEE non-finite values. -/
inductive FVal where
  | finite (q : ℚ)
  | posInf
  | negInf
  | nan
deriving DecidableEq

/-- `num as f64 / den as f64` for `u32` operands: finite exact quotient
when the denominator is nonzero, otherwise NaN (0/0) or +infinity. -/
def fdiv (num den : Nat) : FVal :=
  if den = 0 then (if num = 0 then .nan else .posInf)
  else .finite ((num : ℚ) / (den : ℚ))

/-- `1.0 - x` on the float model. -/
def oneSub : FVal → FVal
  | .finite q => .finite (1 - q)
  | .posInf => .negInf
  | .negInf => .posInf
  | .nan => .nan

/-- `x * 100.0` on the float model. -/
def mul100 : FVal → FVal
  | .finite q => .finite (q * 100)
  | .posInf => .posInf
  | .negInf => .negInf
  | .nan => .nan

/-- `htslib::BAM_FUNMAP`: the "unmapped" status bit. -/
def BAM_FUNMAP : Nat := 4

/-- `htslib::BAM_FSECONDARY`: the "secondary alignment" status bit. -/
def BAM_FSECONDARY : Nat := 256

/-- The record filter of `extract`:
`read.flags() & (BAM_FUNMAP | BAM_FSECONDARY) as u16 == 0`. -/
def keep (flags : Nat) : Bool := flags &&& (BAM_FUNMAP ||| BAM_FSECONDARY) == 0

/-- `get_de_tag`: `Some (100.0 * (1.0 - v))` for a `Float` `de` tag,
`None` when the tag is absent, and a panic (modelled as
`TagTypeMismatch`) when the tag is present with another type. -/
def get_de_tag (r : BamRecord) : Except TagError (Option ℚ) :=
  match r.de with
  | some (Aux.Float v) => .ok (some (100 * (1 - v)))
  | some _ => .error .TagTypeMismatch
  | none => .ok none

/-- `get_nm_tag`: the `NM` tag widened from `u8`/`u16`/`u32` to `u32`;
a panic (`TagTypeMismatch`) on any other present type, and a panic
(`TagMissing`) when the tag is absent. -/
def get_nm_tag (r : BamRecord) : Except TagError Nat :=
  match r.nm with
  | some (Aux.U8 v) => .ok v
  | some (Aux.U16 v) => .ok v
  | some (Aux.U32 v) => .ok v
  | some _ => .error .TagTypeMismatch
  | none => .error .TagMissing

/-- The three `u32` accumulators of the CIGAR scan. -/
structure CigarStats where
  nMatches : Nat
  gap_size : Nat
  gap_count : Nat
deriving DecidableEq

/-- One step of the CIGAR scan in `gap_compressed_identity`:
Match/Equal/Diff add their length to `matches`; Del/Ins add their length
to `gap_size` and `1` to `gap_count`; other operations are ignored. -/
def stepCigar (s : CigarStats) : Cigar → CigarStats
  | .Match l => { s with nMatches := add32 s.nMatches l }
  | .Equal l => { s with nMatches := add32 s.nMatches l }
  | .Diff l => { s with nMatches := add32 s.nMatches l }
  | .Del l => { s with gap_size := add32 s.gap_size l, gap_count := add32 s.gap_count 1 }
  | .Ins l => { s with gap_size := add32 s.gap_size l, gap_count := add32 s.gap_count 1 }
  | _ => s

/-- The full CIGAR scan, starting from zeroed accumulators. -/
def scanCigar (ops : List Cigar) : CigarStats :=
  ops.foldl stepCigar ⟨0, 0, 0⟩

/-- The fallback numerator `get_nm_tag(record) - gap_size + gap_count`,
evaluated left to right in wrapping `u32` arithmetic. -/
def num32 (nm : Nat) (s : CigarStats) : Nat := add32 (sub32 nm s.gap_size) s.gap_count

/-- The fallback denominator `matches + gap_count` in `u32` arithmetic. -/
def den32 (s : CigarStats) : Nat := add32 s.nMatches s.gap_count

/-- `gap_compressed_identity`: the `de` tag value when present (already
scaled by `get_de_tag`), otherwise `1.0 - (nm - gap_size + gap_count)
as f64 / (matches + gap_count) as f64` from the CIGAR scan and the `NM`
tag; panics propagate as errors. -/
def gap_compressed_identity (r : BamRecord) : Except TagError FVal :=
  match get_de_tag r with
  | .error e => .error e
  | .ok (some v) => .ok (.finite v)
  | .ok none =>
    match get_nm_tag r with
    | .error e => .error e
    | .ok nm =>
      let s := scanCigar r.cigar
      .ok (oneSub (fdiv (num32 nm s) (den32 s)))

/-- The `as u64` cast of an `i64` value: reduction modulo `2 ^ 64`. -/
def u64cast (d : Int) : Nat := (d % (2 ^ 64)).toNat

/-- One output row: `(length, aligned_length, identity, mapq)`. -/
abbrev Row := Nat × Nat × FVal × Nat

/-- The per-record map of `extract`: `(read.seq_len() as u64,
(read.reference_end() - read.reference_start()) as u64,
gap_compressed_identity(&read) * 100.0, read.mapq())`. -/
def extractRow (r : BamRecord) : Except TagError Row :=
  match gap_compressed_identity r with
  | .error e => .error e
  | .ok ident =>
    .ok (r.seq_len, u64cast (r.reference_end - r.reference_start), mul100 ident, r.mapq)

/-- The records surviving the flag filter, in input order. -/
def keptRecords (rs : List BamRecord) : List BamRecord :=
  rs.filter (fun r => keep r.flags)

/-- Sequential row extraction over a record list; the first panic aborts
the whole run (no partial result). -/
def mapRows : List BamRecord → Except TagError (List Row)
  | [] => .ok []
  | r :: rs =>
    match extractRow r with
    | .error e => .error e
    | .ok row =>
      match mapRows rs with
      | .error e => .error e
      | .ok rest => .ok (row :: rest)

/-- The whole `extract` pipeline on a decoded record stream: filter,
then per-record metric extraction in order. -/
def extract (rs : List BamRecord) : Except TagError (List Row) :=
  mapRows (keptRecords rs)

/-- The four accumulated output columns. -/
structure Columns where
  lengths : List Nat
  aligned_lengths : List Nat
  identities : List FVal
  mapqs : List Nat
deriving DecidableEq

/-- The unzip of the row stream into the four columns
(`unzip_n_vec` in the source). -/
def columnsOf (rows : List Row) : Columns where
  lengths := rows.map (fun t => t.1)
  aligned_lengths := rows.map (fun t => t.2.1)
  identities := rows.map (fun t => t.2.2.1)
  mapqs := rows.map (fun t => t.2.2.2)

/-- The pipeline up to the hand-off to the table writer: an error means
the process aborts before any output file is finalized. -/
def runPipeline (rs : List BamRecord) : Except TagError Columns :=
  (extract rs).map columnsOf

/-! ### Helper lemmas -/

theorem M32_pos : 0 < M32 := by norm_num [M32]

theorem add32_lt (a b : Nat) : add32 a b < M32 := Nat.mod_lt _ M32_pos

theorem add32_eq (a b : Nat) (h : a + b < M32) : add32 a b = a + b := by
  unfold add32
  exact Nat.mod_eq_of_lt h

theorem sub32_eq (a b : Nat) (ha : a < M32) (hba : b ≤ a) : sub32 a b = a - b := by
  unfold sub32
  have h1 : a + M32 - b = (a - b) + M32 := by omega
  rw [h1, Nat.add_mod_right]
  exact Nat.mod_eq_of_lt (by omega)

theorem sub32_underflow (a b : Nat) (ha : a < M32) (hb : b < M32) (hab : a < b) :
    sub32 a b = a + M32 - b := by
  unfold sub32
  exact Nat.mod_eq_of_lt (by omega)

/-- `CigarStats` whose fields are reduced `u32` values. -/
def CigarStats.wf (s : CigarStats) : Prop :=
  s.nMatches < M32 ∧ s.gap_size < M32 ∧ s.gap_count < M32

theorem stepCigar_wf (s : CigarStats) (op : Cigar) (h : s.wf) : (stepCigar s op).wf := by
  obtain ⟨h1, h2, h3⟩ := h
  cases op <;> simp only [stepCigar, CigarStats.wf] <;>
    exact ⟨by first | exact add32_lt .. | assumption,
           by first | exact add32_lt .. | assumption,
           by first | exact add32_lt .. | assumption⟩

theorem scanCigar_wf (ops : List Cigar) : (scanCigar ops).wf := by
  unfold scanCigar
  have h : ∀ (l : List Cigar) (s : CigarStats), s.wf → (l.foldl stepCigar s).wf := by
    intro l
    induction l with
    | nil => intro s hs; exact hs
    | cons op l ih =>
      intro s hs
      exact ih _ (stepCigar_wf s op hs)
  exact h ops ⟨0, 0, 0⟩ ⟨M32_pos, M32_pos, M32_pos⟩

theorem mapRows_nil : mapRows [] = .ok [] := rfl

theorem mapRows_cons (r : BamRecord) (rs : List BamRecord) :
    mapRows (r :: rs) =
      match extractRow r with
      | .error e => .error e
      | .ok row =>
        match mapRows rs with
        | .error e => .error e
        | .ok rest => .ok (row :: rest) := rfl

theorem mapRows_ok_spec (l : List BamRecord) (out : List Row) (h : mapRows l = .ok out) :
    out.length = l.length ∧
      ∀ i (hi : i < l.length), ∃ row : Row,
        out[i]? = some row ∧ extractRow (l.get ⟨i, hi⟩) = .ok row := by
  induction l generalizing out with
  | nil =>
    rw [mapRows_nil] at h
    injection h with h
    subst h
    exact ⟨rfl, fun i hi => absurd hi (by simp)⟩
  | cons r rs ih =>
    rw [mapRows_cons] at h
    cases he : extractRow r with
    | error e => rw [he] at h; simp at h
    | ok row =>
      rw [he] at h
      cases hm : mapRows rs with
      | error e => rw [hm] at h; simp at h
      | ok rest =>
        rw [hm] at h
        simp only at h
        injection h with h
        subst h
        obtain ⟨hlen, hpt⟩ := ih rest hm
        refine ⟨by simp [hlen], ?_⟩
        intro i hi
        cases i with
        | zero => exact ⟨row, by simp, by simpa using he⟩
        | succ n =>
          obtain ⟨row', h1, h2⟩ := hpt n (by simpa using hi)
          exact ⟨row', by simpa using h1, by simpa using h2⟩

theorem mapRows_not_ok_of_mem (l : List BamRecord) (r : BamRecord) (e : TagError)
    (hmem : r ∈ l) (he : extractRow r = .error e) :
    ∀ out, mapRows l ≠ .ok out := by
  induction l with
  | nil => cases hmem
  | cons a as ih =>
    intro out h
    rw [mapRows_cons] at h
    cases hmem with
    | head => rw [he] at h; simp at h
    | tail _ hmem' =>
      cases ha : extractRow a with
      | error e' => rw [ha] at h; simp at h
      | ok row =>
        rw [ha] at h
        cases hm : mapRows as with
        | error e' => rw [hm] at h; simp at h
        | ok rest => exact ih hmem' rest hm

theorem lor_eq_zero_iff (x y : Nat) : x ||| y = 0 ↔ x = 0 ∧ y = 0 := by
  constructor
  · intro h
    have hbit : ∀ i, x.testBit i = false ∧ y.testBit i = false := by
      intro i
      have h2 := congrArg (fun n => n.testBit i) h
      simp only [Nat.testBit_lor, Nat.zero_testBit, Bool.or_eq_false_iff] at h2
      exact h2
    exact ⟨Nat.zero_of_testBit_eq_false fun i => (hbit i).1,
           Nat.zero_of_testBit_eq_false fun i => (hbit i).2⟩
  · rintro ⟨rfl, rfl⟩
    rfl

/-! ### Concrete records used as evaluation inputs -/

/-- A kept record whose `de` tag is `0.05`, with a CIGAR and an `NM` tag. -/
def rec1 : BamRecord :=
  { flags := 0, seq_len := 100, reference_start := 0, reference_end := 50,
    mapq := 60, cigar := [.Match 100], de := some (.Float (1/20)), nm := some (.U8 5) }

/-- Same `de` tag as `rec1`, different CIGAR content, no `NM` tag. -/
def rec1b : BamRecord :=
  { rec1 with cigar := [.Match 10, .Ins 2, .Del 3], nm := none }

/-- A record carrying the unmapped flag bit. -/
def recC3 : BamRecord :=
  { flags := 4, seq_len := 0, reference_start := 0, reference_end := 0,
    mapq := 0, cigar := [], de := none, nm := none }

/-- A kept record with `mapq = 255` and a `de` tag. -/
def recC5 : BamRecord :=
  { flags := 0, seq_len := 7, reference_start := 3, reference_end := 9,
    mapq := 255, cigar := [.Match 7], de := some (.Float 0), nm := none }

/-- Evaluation of `extractRow` on `rec1`. -/
theorem extractRow_rec1 : extractRow rec1 = .ok (100, 50, .finite 9500, 60) := by
  simp only [extractRow, gap_compressed_identity, get_de_tag, rec1]
  norm_num [mul100, u64cast]
  decide

/-- Evaluation of `extractRow` on `rec1b`. -/
theorem extractRow_rec1b : extractRow rec1b = .ok (100, 50, .finite 9500, 60) := by
  simp only [extractRow, gap_compressed_identity, get_de_tag, rec1b, rec1]
  norm_num [mul100, u64cast]
  decide

/-- Evaluation of `extractRow` on `recC5` (fast path, `de = 0`,
identity doubled to `10000` by the scaling in both `get_de_tag` and
`extract`). -/
theorem extractRow_recC5 : extractRow recC5 = .ok (7, 6, .finite 10000, 255) := by
  simp only [extractRow, gap_compressed_identity, get_de_tag, recC5]
  norm_num [mul100, u64cast]
  decide

/-! ### Claims -/

/-- C1: the claim says a kept record with divergence tag `d` yields output
identity `100 * (1 - d)` (so `95.0` for `d = 0.05`).  The code violates
this: `get_de_tag` already returns `100 * (1 - d)` and `extract`
multiplies the identity by `100` again, so the written value is
`10000 * (1 - d)` — `9500` for `d = 0.05` — regardless of CIGAR content
and without consulting the `NM` tag (same output with a different CIGAR
and no `NM` tag). -/
theorem C1_fastpath_output_is_double_scaled :
    extractRow rec1 = .ok (100, 50, .finite 9500, 60) ∧
    extractRow rec1b = .ok (100, 50, .finite 9500, 60) ∧
    FVal.finite 9500 ≠ FVal.finite 95 := by
  refine ⟨extractRow_rec1, extractRow_rec1b, ?_⟩
  simp only [ne_eq, FVal.finite.injEq]
  norm_num

/-- C3: the record filter keeps a record iff neither the unmapped bit
(`BAM_FUNMAP`) nor the secondary-alignment bit (`BAM_FSECONDARY`) is set
in its flags; consequently a record with either bit set never appears
among the kept records from which the output rows are built. -/
theorem C3_filter_keeps_iff_bits_clear (flags : Nat) (r : BamRecord) (rs : List BamRecord) :
    (keep flags = true ↔ (flags &&& BAM_FUNMAP = 0 ∧ flags &&& BAM_FSECONDARY = 0)) ∧
    ((flags &&& BAM_FUNMAP ≠ 0 ∨ flags &&& BAM_FSECONDARY ≠ 0) → r.flags = flags →
      r ∉ keptRecords rs) := by
  have hsplit : (flags &&& (BAM_FUNMAP ||| BAM_FSECONDARY) = 0) ↔
      (flags &&& BAM_FUNMAP = 0 ∧ flags &&& BAM_FSECONDARY = 0) := by
    rw [Nat.and_or_distrib_left, lor_eq_zero_iff]
  have hkeep : keep flags = true ↔
      (flags &&& BAM_FUNMAP = 0 ∧ flags &&& BAM_FSECONDARY = 0) := by
    simpa [keep] using hsplit
  refine ⟨hkeep, ?_⟩
  intro hbad hrf hmem
  rw [keptRecords, List.mem_filter] at hmem
  have hk := hmem.2
  rw [hrf] at hk
  have hbits := hkeep.mp hk
  rcases hbad with hb | hb
  · exact hb hbits.1
  · exact hb hbits.2

/-- Witness for C3: a record with the unmapped bit set is excluded. -/
theorem C3_filter_keeps_iff_bits_clear_witness : recC3 ∉ keptRecords [recC3] :=
  (C3_filter_keeps_iff_bits_clear 4 recC3 [recC3]).2 (Or.inl (by decide)) rfl

/-- C5: for every kept record whose row extraction succeeds, the `mapq`
column value is the record's mapping-quality byte unmodified, over the
full byte range `0..255`. -/
theorem C5_mapq_passthrough (r : BamRecord) (t : Row) (hq : r.mapq ≤ 255)
    (h : extractRow r = .ok t) : t.2.2.2 = r.mapq ∧ t.2.2.2 ≤ 255 := by
  unfold extractRow at h
  cases hg : gap_compressed_identity r with
  | error e => rw [hg] at h; simp at h
  | ok ident =>
    rw [hg] at h
    simp only at h
    injection h with h
    subst h
    exact ⟨rfl, hq⟩

/-- Witness for C5 at `mapq = 255`. -/
theorem C5_mapq_passthrough_witness :
    extractRow recC5 = .ok (7, 6, .finite 10000, 255) ∧
    (7, 6, FVal.finite 10000, 255).2.2.2 = recC5.mapq ∧
    (7, 6, FVal.finite 10000, 255).2.2.2 ≤ 255 :=
  ⟨extractRow_recC5,
   C5_mapq_passthrough recC5 (7, 6, .finite 10000, 255) (by decide) extractRow_recC5⟩

/-- C6: for every record whose row extraction succeeds, the `length`
column value is the record's full query sequence length, and — provided
the reference span `reference_end - reference_start` is nonnegative (and
representable in 64 bits) — the `aligned_length` column value equals
that span. -/
theorem C6_length_and_aligned_length (r : BamRecord) (t : Row)
    (hd0 : 0 ≤ r.reference_end - r.reference_start)
    (hd1 : r.reference_end - r.reference_start < 2 ^ 64)
    (h : extractRow r = .ok t) :
    t.1 = r.seq_len ∧ (t.2.1 : Int) = r.reference_end - r.reference_start := by
  unfold extractRow at h
  cases hg : gap_compressed_identity r with
  | error e => rw [hg] at h; simp at h
  | ok ident =>
    rw [hg] at h
    simp only at h
    injection h with h
    subst h
    refine ⟨rfl, ?_⟩
    show (u64cast (r.reference_end - r.reference_start) : Int) = _
    unfold u64cast
    rw [Int.emod_eq_of_lt hd0 hd1]
    exact Int.toNat_of_nonneg hd0

/-- Witness for C6: `recC5` spans reference positions 3 to 9. -/
theorem C6_length_and_aligned_length_witness :
    (7, 6, FVal.finite 10000, 255).1 = recC5.seq_len ∧
    ((7, 6, FVal.finite 10000, 255).2.1 : Int) =
      recC5.reference_end - recC5.reference_start :=
  C6_length_and_aligned_length recC5 (7, 6, .finite 10000, 255)
    (by decide) (by decide) extractRow_recC5

/-- The spec's fallback example: operations `8M 2I 5M 1D 10M`, edit
distance 5, no divergence tag. -/
def rec2 : BamRecord :=
  { flags := 0, seq_len := 26, reference_start := 0, reference_end := 24,
    mapq := 40, cigar := [.Match 8, .Ins 2, .Match 5, .Del 1, .Match 10],
    de := none, nm := some (.U8 5) }

/-- C2: for a kept record without a divergence tag, with edit-distance
value `ed` and CIGAR accumulators `s` (each Match/Equal/Diff length
added to `nMatches`; each Ins/Del adding its length to `gap_size` and 1
to `gap_count`), the output identity is
`100 * (1 - (ed - gap_size + gap_count) / (nMatches + gap_count))`,
under the preconditions that the `u32` numerator does not underflow or
overflow and the denominator is nonzero. -/
theorem C2_fallback_identity_formula (r : BamRecord) (ed : Nat) (s : CigarStats)
    (hde : r.de = none) (hnm : get_nm_tag r = .ok ed) (hs : scanCigar r.cigar = s)
    (hed : ed < M32)
    (hge : s.gap_size ≤ ed)
    (hnum : ed - s.gap_size + s.gap_count < M32)
    (hden : 0 < s.nMatches + s.gap_count)
    (hden2 : s.nMatches + s.gap_count < M32) :
    extractRow r = .ok (r.seq_len, u64cast (r.reference_end - r.reference_start),
      .finite (100 * (1 - ((ed : ℚ) - (s.gap_size : ℚ) + (s.gap_count : ℚ)) /
        ((s.nMatches : ℚ) + (s.gap_count : ℚ)))), r.mapq) := by
  have hdeok : get_de_tag r = .ok none := by simp [get_de_tag, hde]
  have hgci : gap_compressed_identity r =
      .ok (oneSub (fdiv (num32 ed s) (den32 s))) := by
    unfold gap_compressed_identity
    rw [hdeok, hnm, hs]
  have hnum32 : num32 ed s = ed - s.gap_size + s.gap_count := by
    unfold num32
    rw [sub32_eq ed s.gap_size hed hge, add32_eq _ _ hnum]
  have hden32 : den32 s = s.nMatches + s.gap_count := add32_eq _ _ hden2
  have hval : mul100 (oneSub (fdiv (num32 ed s) (den32 s))) =
      .finite (100 * (1 - ((ed : ℚ) - (s.gap_size : ℚ) + (s.gap_count : ℚ)) /
        ((s.nMatches : ℚ) + (s.gap_count : ℚ)))) := by
    rw [hnum32, hden32]
    unfold fdiv
    rw [if_neg (by omega)]
    simp only [oneSub, mul100]
    congr 1
    rw [mul_comm]
    congr 2
    push_cast [Nat.cast_sub hge]
    ring
  unfold extractRow
  rw [hgci]
  simp only
  rw [hval]

/-- Witness for C2: the spec's example record yields
`nMatches = 23`, `gap_size = 3`, `gap_count = 2` and identity `84.0`. -/
theorem C2_fallback_identity_formula_witness :
    scanCigar rec2.cigar = ⟨23, 3, 2⟩ ∧
    extractRow rec2 = .ok (26, 24, .finite 84, 40) := by
  refine ⟨by decide, ?_⟩
  have h := C2_fallback_identity_formula rec2 5 ⟨23, 3, 2⟩ rfl rfl (by decide)
    (by decide) (by decide) (by decide) (by decide) (by decide)
  norm_num [rec2, u64cast] at h
  exact h

/-- C4: on a successful run, the four columns have a common length, that
length is the number of records that passed the filter, and position `i`
of every column is the projection of the single row extracted from the
`i`-th kept record, in input order. -/
theorem C4_column_alignment (rs : List BamRecord) (rows : List Row)
    (h : extract rs = .ok rows) :
    ((columnsOf rows).identities.length = rows.length ∧
     (columnsOf rows).lengths.length = rows.length ∧
     (columnsOf rows).aligned_lengths.length = rows.length ∧
     (columnsOf rows).mapqs.length = rows.length) ∧
    rows.length = (keptRecords rs).length ∧
    (∀ i (hi : i < (keptRecords rs).length), ∃ row : Row,
      extractRow ((keptRecords rs).get ⟨i, hi⟩) = .ok row ∧
      rows[i]? = some row ∧
      (columnsOf rows).lengths[i]? = some row.1 ∧
      (columnsOf rows).aligned_lengths[i]? = some row.2.1 ∧
      (columnsOf rows).identities[i]? = some row.2.2.1 ∧
      (columnsOf rows).mapqs[i]? = some row.2.2.2) := by
  obtain ⟨hlen, hpt⟩ := mapRows_ok_spec _ _ h
  refine ⟨⟨by simp [columnsOf], by simp [columnsOf], by simp [columnsOf],
    by simp [columnsOf]⟩, hlen, ?_⟩
  intro i hi
  obtain ⟨row, h1, h2⟩ := hpt i hi
  refine ⟨row, h2, h1, ?_, ?_, ?_, ?_⟩ <;>
    simp [columnsOf, List.getElem?_map, h1]

/-- A trivially kept record used to exercise the pipeline end to end. -/
def rec4 : BamRecord :=
  { flags := 0, seq_len := 3, reference_start := 1, reference_end := 2,
    mapq := 9, cigar := [], de := some (.Float 0), nm := none }

/-- Evaluation of the pipeline on the one-record stream `[rec4]`. -/
theorem extract_rec4 : extract [rec4] = .ok [(3, 1, .finite 10000, 9)] := by
  have h : extractRow rec4 = .ok (3, 1, .finite 10000, 9) := by
    simp only [extractRow, gap_compressed_identity, get_de_tag, rec4]
    norm_num [mul100, u64cast]
  have hk : keptRecords [rec4] = [rec4] := rfl
  show mapRows (keptRecords [rec4]) = _
  rw [hk, mapRows_cons, h, mapRows_nil]

/-- Witness for C4 on the one-record stream `[rec4]`. -/
theorem C4_column_alignment_witness :
    extract [rec4] = .ok [(3, 1, .finite 10000, 9)] ∧
    [(3, 1, FVal.finite 10000, 9)].length = (keptRecords [rec4]).length :=
  ⟨extract_rec4, (C4_column_alignment [rec4] _ extract_rec4).2.1⟩

/-- A kept record with neither a `de` tag nor an `NM` tag. -/
def recC7 : BamRecord :=
  { flags := 0, seq_len := 5, reference_start := 0, reference_end := 5,
    mapq := 1, cigar := [.Match 5], de := none, nm := none }

/-- C7: a kept record with no divergence tag and no edit-distance tag
makes the fallback path raise `TagMissing`, and the whole run aborts:
no row list and no finalized column set is ever produced for the stream
containing it. -/
theorem C7_missing_tag_aborts (r : BamRecord) (rs : List BamRecord)
    (hde : r.de = none) (hnm : r.nm = none)
    (hkeep : keep r.flags = true) (hmem : r ∈ rs) :
    gap_compressed_identity r = .error .TagMissing ∧
    (∀ rows, extract rs ≠ .ok rows) ∧
    (∀ cols, runPipeline rs ≠ .ok cols) := by
  have hdeok : get_de_tag r = .ok none := by simp [get_de_tag, hde]
  have hnmerr : get_nm_tag r = .error .TagMissing := by simp [get_nm_tag, hnm]
  have hg : gap_compressed_identity r = .error .TagMissing := by
    unfold gap_compressed_identity
    rw [hdeok, hnmerr]
  have hrow : extractRow r = .error .TagMissing := by
    unfold extractRow
    rw [hg]
  have hmem' : r ∈ keptRecords rs := by
    rw [keptRecords, List.mem_filter]
    exact ⟨hmem, hkeep⟩
  have hnok := mapRows_not_ok_of_mem (keptRecords rs) r _ hmem' hrow
  refine ⟨hg, hnok, ?_⟩
  intro cols hc
  unfold runPipeline at hc
  cases hx : extract rs with
  | error e => rw [hx] at hc; simp [Except.map] at hc
  | ok rows => exact hnok rows hx

/-- Witness for C7 on the one-record stream `[recC7]`. -/
theorem C7_missing_tag_aborts_witness :
    gap_compressed_identity recC7 = .error .TagMissing ∧
    extract [recC7] ≠ .ok [] := by
  have h := C7_missing_tag_aborts recC7 [recC7] rfl rfl rfl (by simp)
  exact ⟨h.1, h.2.1 []⟩

/-- A kept record whose `de` tag has a non-float type. -/
def recC8 : BamRecord :=
  { flags := 0, seq_len := 5, reference_start := 0, reference_end := 5,
    mapq := 1, cigar := [.Match 5], de := some (.U8 1), nm := none }

/-- A kept record whose `NM` tag is a `u16`. -/
def recC8b : BamRecord :=
  { flags := 0, seq_len := 5, reference_start := 0, reference_end := 5,
    mapq := 1, cigar := [.Match 5], de := none, nm := some (.U16 300) }

/-- C8: a present `de` tag of non-float type aborts with
`TagTypeMismatch`; on the fallback path a present `NM` tag that is not
`U8`/`U16`/`U32` aborts with `TagTypeMismatch`; and an `NM` tag of any
of the three widths is widened to a common `u32` value (below `2 ^ 32`)
before use. -/
theorem C8_tag_type_mismatch_and_widening (r : BamRecord) (a : Aux) :
    (r.de = some a → (∀ v : ℚ, a ≠ .Float v) →
      gap_compressed_identity r = .error .TagTypeMismatch) ∧
    (r.de = none → r.nm = some a →
      (∀ v : Nat, a ≠ .U8 v ∧ a ≠ .U16 v ∧ a ≠ .U32 v) →
      gap_compressed_identity r = .error .TagTypeMismatch) ∧
    (r.nm = some a → a.wf → ∀ v : Nat, (a = .U8 v ∨ a = .U16 v ∨ a = .U32 v) →
      get_nm_tag r = .ok v ∧ v < 2 ^ 32) := by
  refine ⟨?_, ?_, ?_⟩
  · intro hde hnf
    have hdeerr : get_de_tag r = .error .TagTypeMismatch := by
      unfold get_de_tag
      rw [hde]
      cases a with
      | Float v => exact absurd rfl (hnf v)
      | U8 v => rfl
      | U16 v => rfl
      | U32 v => rfl
      | Other => rfl
    unfold gap_compressed_identity
    rw [hdeerr]
  · intro hde hnm hnu
    have hdeok : get_de_tag r = .ok none := by simp [get_de_tag, hde]
    have hnmerr : get_nm_tag r = .error .TagTypeMismatch := by
      unfold get_nm_tag
      rw [hnm]
      cases a with
      | U8 v => exact absurd rfl (hnu v).1
      | U16 v => exact absurd rfl (hnu v).2.1
      | U32 v => exact absurd rfl (hnu v).2.2
      | Float v => rfl
      | Other => rfl
    unfold gap_compressed_identity
    rw [hdeok, hnmerr]
  · intro hnm hwf v hv
    rcases hv with rfl | rfl | rfl
    · refine ⟨by simp [get_nm_tag, hnm], ?_⟩
      simp only [Aux.wf] at hwf
      omega
    · refine ⟨by simp [get_nm_tag, hnm], ?_⟩
      simp only [Aux.wf] at hwf
      omega
    · exact ⟨by simp [get_nm_tag, hnm], hwf⟩

/-- Witness for C8: a `U8` `de` tag aborts; a `U16` `NM` tag of value
300 is widened to the `u32` value 300. -/
theorem C8_tag_type_mismatch_and_widening_witness :
    gap_compressed_identity recC8 = .error .TagTypeMismatch ∧
    get_nm_tag recC8b = .ok 300 ∧ 300 < 2 ^ 32 := by
  refine ⟨(C8_tag_type_mismatch_and_widening recC8 (.U8 1)).1 rfl ?_, ?_⟩
  · intro v h
    exact Aux.noConfusion h
  · exact (C8_tag_type_mismatch_and_widening recC8b (.U16 300)).2.2 rfl (by decide)
      300 (Or.inr (Or.inl rfl))

/-- A kept record with an empty CIGAR, `NM = 0` and no `de` tag:
`nMatches + gap_count = 0`. -/
def rec9 : BamRecord :=
  { flags := 0, seq_len := 0, reference_start := 0, reference_end := 0,
    mapq := 0, cigar := [], de := none, nm := some (.U8 0) }

/-- C9 counterexample: the claim says the `matches + gap_count = 0` case
is handled explicitly (identity defined as 0, or a reported error).  On
`rec9` the code performs the division anyway and succeeds with a NaN
identity — neither `0` nor an error. -/
theorem C9_counterexample_nan_not_handled :
    extractRow rec9 = .ok (0, 0, .nan, 0) ∧ FVal.nan ≠ .finite 0 := by
  exact ⟨rfl, by decide⟩

/-- C9 amended: when the fallback denominator `nMatches + gap_count` is
zero, the division is performed anyway and the record still yields a row
whose identity is the non-finite value NaN (zero numerator) or negative
infinity (nonzero numerator), which propagates into the output. -/
theorem C9_div_zero_propagates_nonfinite (r : BamRecord) (ed : Nat)
    (hde : r.de = none) (hnm : get_nm_tag r = .ok ed)
    (hden : den32 (scanCigar r.cigar) = 0) :
    ∃ t : Row, extractRow r = .ok t ∧ (t.2.2.1 = .nan ∨ t.2.2.1 = .negInf) := by
  have hdeok : get_de_tag r = .ok none := by simp [get_de_tag, hde]
  have hg : gap_compressed_identity r =
      .ok (oneSub (fdiv (num32 ed (scanCigar r.cigar)) 0)) := by
    unfold gap_compressed_identity
    rw [hdeok, hnm]
    show Except.ok (oneSub (fdiv (num32 ed (scanCigar r.cigar))
      (den32 (scanCigar r.cigar)))) = _
    rw [hden]
  by_cases hn : num32 ed (scanCigar r.cigar) = 0
  · have hfd : fdiv (num32 ed (scanCigar r.cigar)) 0 = .nan := by
      unfold fdiv
      rw [if_pos rfl, if_pos hn]
    have hg2 : gap_compressed_identity r = .ok .nan := by
      rw [hg, hfd]
      rfl
    refine ⟨(r.seq_len, u64cast (r.reference_end - r.reference_start), .nan, r.mapq),
      ?_, Or.inl rfl⟩
    unfold extractRow
    rw [hg2]
    rfl
  · have hfd : fdiv (num32 ed (scanCigar r.cigar)) 0 = .posInf := by
      unfold fdiv
      rw [if_pos rfl, if_neg hn]
    have hg2 : gap_compressed_identity r = .ok .negInf := by
      rw [hg, hfd]
      rfl
    refine ⟨(r.seq_len, u64cast (r.reference_end - r.reference_start), .negInf, r.mapq),
      ?_, Or.inr rfl⟩
    unfold extractRow
    rw [hg2]
    rfl

/-- Witness for C9: the amended claim at `rec9`. -/
theorem C9_div_zero_propagates_nonfinite_witness :
    ∃ t : Row, extractRow rec9 = .ok t ∧ (t.2.2.1 = .nan ∨ t.2.2.1 = .negInf) :=
  C9_div_zero_propagates_nonfinite rec9 0 rfl rfl (by decide)

/-- C10: the fallback numerator is the wrapping `u32` evaluation
`(ed - gap_size) + gap_count`.  When `ed < gap_size` the subtraction
underflows, wrapping modulo `2 ^ 32` and differing from the
mathematical value; when `ed >= gap_size` (and the sum does not
overflow) the numerator equals the mathematical value. -/
theorem C10_numerator_u32_wrapping (ed : Nat) (s : CigarStats)
    (hed : ed < M32) (hgs : s.gap_size < M32) (hgc : s.gap_count < M32) :
    (ed < s.gap_size →
      sub32 ed s.gap_size = ed + M32 - s.gap_size ∧
      ((sub32 ed s.gap_size : ℤ) ≠ (ed : ℤ) - (s.gap_size : ℤ))) ∧
    (s.gap_size ≤ ed → ed - s.gap_size + s.gap_count < M32 →
      ((num32 ed s : ℚ) = (ed : ℚ) - (s.gap_size : ℚ) + (s.gap_count : ℚ))) := by
  constructor
  · intro hlt
    have h1 := sub32_underflow ed s.gap_size hed hgs hlt
    refine ⟨h1, ?_⟩
    rw [h1]
    simp only [M32] at *
    intro hc
    omega
  · intro hge hnum
    unfold num32
    rw [sub32_eq ed s.gap_size hed hge, add32_eq _ _ hnum]
    push_cast [Nat.cast_sub hge]
    ring

/-- Witness for C10: with `ed = 0` and `gap_size = 1` the wrapped
numerator term is `2 ^ 32 - 1`, not the mathematical `-1`. -/
theorem C10_numerator_u32_wrapping_witness :
    sub32 0 1 = 4294967295 ∧ ((sub32 0 1 : ℤ) ≠ (0 : ℤ) - 1) := by
  have h := (C10_numerator_u32_wrapping 0 ⟨0, 1, 0⟩ (by decide) (by decide)
    (by decide)).1 (by decide)
  refine ⟨?_, h.2⟩
  rw [h.1]
  decide

end MakeArrow
